import Mathlib

/-!
Verification of the mtmws_cards repository: the saturating fixed-point
signal type (src/wscomp/src/lib.rs, type InputValue, re-exported as
Sample), the DAC codeword builder, the mux input-sampling cycle and the
three-way intensity mixer (src/backyard_rain/src/main.rs).

Machine integers are embedded as Int with explicit two's-complement
wrapping (release-profile Rust semantics: arithmetic wraps, only
division by zero or the i32::MIN / -1 overflow panic).
-/

/-- Two's-complement wrap of an integer into the i32 range
[-2^31, 2^31). Release-mode Rust arithmetic on i32 reduces every
result this way. -/
def wrap32 (x : Int) : Int :=
  (x + 2 ^ 31) % 2 ^ 32 - 2 ^ 31

/-- Arithmetic shift right by 4 on i32 (the Rust expression
`x >> InputValue::ACCUM_BITS`): floor division by 16. -/
def asr4 (x : Int) : Int :=
  Int.fdiv x 16

/-- Shift left by 4 on i32 (the Rust expression
`x << InputValue::ACCUM_BITS`): multiplication by 16, wrapping. -/
def shl4 (x : Int) : Int :=
  wrap32 (x * 16)

/-- Rust's i32::clamp(lo, hi). -/
def i32clamp (x lo hi : Int) : Int :=
  if x < lo then lo else if hi < x then hi else x

/-- Rust's `as u16` cast out of i32: keep the low 16 bits. -/
def u16cast (x : Int) : Int :=
  x % 2 ^ 16

/-- Embedding of wscomp::InputValue (re-exported as Sample): a 12-bit
domain value stored in an i32 accumulator shifted left by
ACCUM_BITS = 4, together with the inverted-source flag recorded at
construction. -/
structure InputValue where
  accumulated_raw : Int
  inverted_source : Bool
deriving DecidableEq, Repr

namespace InputValue

/-- InputValue::MIN. -/
def MIN : Int := -(2 ^ 11)

/-- InputValue::MAX. -/
def MAX : Int := 2 ^ 11 - 1

/-- InputValue::CENTER. -/
def CENTER : Int := 0

/-- InputValue::OFFSET. -/
def OFFSET : Int := 2 ^ 11

/-- InputValue::new(raw_value, invert): negate first when invert is
set, then store left-shifted by the accumulation margin. -/
def new (raw_value : Int) (invert : Bool) : InputValue :=
  { accumulated_raw :=
      match invert with
      | false => shl4 raw_value
      | true => shl4 (wrap32 (-raw_value))
    inverted_source := invert }

/-- InputValue::from_u16(value, invert): recenter the unsigned reading
by OFFSET, then build with new. -/
def from_u16 (value : Int) (invert : Bool) : InputValue :=
  new (value - OFFSET) invert

/-- InputValue::update(value): recenter the unsigned reading by
OFFSET; when the source is inverted the code runs `value -= value`
(which zeroes the reading); overwrite the accumulator. -/
def update (s : InputValue) (value : Int) : InputValue :=
  let v := value - OFFSET
  let v := if s.inverted_source then v - v else v
  { s with accumulated_raw := shl4 v }

/-- InputValue::to_clamped(): de-shift the accumulator and saturate to
[MIN, MAX]. -/
def to_clamped (s : InputValue) : Int :=
  i32clamp (asr4 s.accumulated_raw) MIN MAX

/-- InputValue::to_output(): (to_clamped + OFFSET) shifted right by one
(arithmetic shift, floor division by 2), cast to u16. -/
def to_output (s : InputValue) : Int :=
  u16cast (Int.fdiv (s.to_clamped + OFFSET) 2)

/-- Sub for InputValue: accumulators subtract directly (wrapping);
the left operand keeps its flag. -/
def sub (a b : InputValue) : InputValue :=
  { a with accumulated_raw := wrap32 (a.accumulated_raw - b.accumulated_raw) }

/-- Mul of two InputValues: de-shift both accumulators, multiply
(wrapping), re-shift. -/
def mul (a b : InputValue) : InputValue :=
  { a with
    accumulated_raw :=
      shl4 (wrap32 (asr4 a.accumulated_raw * asr4 b.accumulated_raw)) }

/-- Mul of an InputValue by a plain i32: de-shift, multiply
(wrapping), re-shift. -/
def mulInt (a : InputValue) (rhs : Int) : InputValue :=
  { a with accumulated_raw := shl4 (wrap32 (asr4 a.accumulated_raw * rhs)) }

/-- Quotient part of Div for InputValue by a plain i32: de-shift,
truncating division, re-shift. -/
def divq (a : InputValue) (rhs : Int) : InputValue :=
  { a with accumulated_raw := shl4 (Int.tdiv (asr4 a.accumulated_raw) rhs) }

/-- Div for InputValue by a plain i32. Rust integer division panics
when the divisor is 0 and on the i32::MIN / -1 overflow; both panic
branches are modelled as none. -/
def div (a : InputValue) (rhs : Int) : Option InputValue :=
  if rhs = 0 ∨ (asr4 a.accumulated_raw = -(2 ^ 31) ∧ rhs = -1) then none
  else some (a.divq rhs)

end InputValue

/-- Modelled from the spec: the Sample alias used by backyard_rain is
the wscomp fixed-point signal type (InputValue); the re-export itself
is not under src. -/
abbrev Sample := InputValue

namespace Sample

/-- Modelled from the spec: Add for Sample is missing from src; per
the spec, add operates on the unshifted accumulator like Sub and
re-normalizes, the left operand keeping its flag. -/
def add (a b : Sample) : Sample :=
  { a with accumulated_raw := wrap32 (a.accumulated_raw + b.accumulated_raw) }

/-- Modelled from the spec: Sample::abs is missing from src; the
absolute value of the accumulator (wrapping at i32::MIN in release
mode). -/
def abs (a : Sample) : Sample :=
  { a with accumulated_raw := wrap32 |a.accumulated_raw| }

/-- Modelled from the spec: the From conversion used by the mixer on
downsampled PCM samples is missing from src; it builds a
non-inverted Sample from the signed value. -/
def from16 (x : Int) : Sample :=
  InputValue.new x false

/-- Modelled from the spec: Sample::scale is missing from src; scale
multiplies by the intensity normalized to [0,1] over the positive
half-range MAX, i.e. self * intensity / MAX with the Mul and Div of
the signal type. -/
def scale (s intensity : Sample) : Sample :=
  (s.mul intensity).divq InputValue.MAX

/-- Modelled from the spec: Sample::scale_inverted is missing from
src; it uses (MAX - intensity) as the weight, i.e.
self * (MAX - intensity) / MAX with the Mul, Sub and Div of the
signal type. -/
def scale_inverted (s intensity : Sample) : Sample :=
  (s.mul ((InputValue.new InputValue.MAX false).sub intensity)).divq
    InputValue.MAX

end Sample

/-- Embedding of the three-position Z switch state. -/
inductive ZSwitch where
  | On : ZSwitch
  | Off : ZSwitch
  | Momentary : ZSwitch
deriving DecidableEq, Repr

/-- ZSwitch::default(). -/
def ZSwitch.default : ZSwitch := ZSwitch.Off

/-- Modelled from the spec: wscomp::JackSample is missing from src
(only its callers are); a jack reading stores a raw and a probe
sub-reading. -/
structure JackSample where
  raw : Sample
  probe : Sample
deriving DecidableEq, Repr

/-- Modelled from the spec: JackSample::new pairs the two
sub-readings. -/
def JackSample.new (raw probe : Sample) : JackSample :=
  { raw := raw, probe := probe }

/-- Embedding of MuxState: the aggregate reading produced once per mux
sampling cycle. The sequence counter is a 32-bit usize on the
rp2040. -/
structure MuxState where
  main_knob : Sample
  x_knob : Sample
  y_knob : Sample
  zswitch : ZSwitch
  cv1 : JackSample
  cv2 : JackSample
  sequence_counter : Nat
deriving DecidableEq, Repr

/-- MuxState::default(): knobs centered and non-inverted, switch off,
CV jacks centered and marked inverted. -/
def MuxState.default : MuxState :=
  { main_knob := InputValue.new InputValue.CENTER false
    x_knob := InputValue.new InputValue.CENTER false
    y_knob := InputValue.new InputValue.CENTER false
    zswitch := ZSwitch.default
    cv1 := JackSample.new (InputValue.new InputValue.CENTER true)
      (InputValue.new InputValue.CENTER true)
    cv2 := JackSample.new (InputValue.new InputValue.CENTER true)
      (InputValue.new InputValue.CENTER true)
    sequence_counter := 0 }

/-- One ADC conversion result per phase of the six-phase mux cycle;
none models a failed conversion (Err branch of adc.read). -/
structure CycleReadings where
  rMain : Option Int
  rCv1Raw : Option Int
  rCv1Probe : Option Int
  rX : Option Int
  rCv2Raw : Option Int
  rCv2Probe : Option Int
  rY : Option Int
  rZ : Option Int
deriving DecidableEq, Repr

/-- Embedding of one full pass of the input_loop body: increment the
wrapping sequence counter, then for each conversion either update the
corresponding sub-field (Ok branch) or retain its previous value (Err
branch, logged only). The function's result is the state sent to the
MUX_INPUT watch at the end of the cycle. -/
def inputCycle (prev : MuxState) (r : CycleReadings) : MuxState :=
  let s := { prev with
    sequence_counter := (prev.sequence_counter + 1) % 2 ^ 32 }
  let s := match r.rMain with
    | some v => { s with main_knob := s.main_knob.update v }
    | none => s
  let s := match r.rCv1Raw with
    | some v => { s with cv1 := { s.cv1 with raw := s.cv1.raw.update v } }
    | none => s
  let s := match r.rCv1Probe with
    | some v => { s with cv1 := { s.cv1 with probe := s.cv1.probe.update v } }
    | none => s
  let s := match r.rX with
    | some v => { s with x_knob := s.x_knob.update v }
    | none => s
  let s := match r.rCv2Raw with
    | some v => { s with cv2 := { s.cv2 with raw := s.cv2.raw.update v } }
    | none => s
  let s := match r.rCv2Probe with
    | some v => { s with cv2 := { s.cv2 with probe := s.cv2.probe.update v } }
    | none => s
  let s := match r.rY with
    | some v => { s with y_knob := s.y_knob.update v }
    | none => s
  let s := match r.rZ with
    | some v =>
      { s with zswitch :=
          if v < 1000 then ZSwitch.Momentary
          else if 3000 < v then ZSwitch.On
          else ZSwitch.Off }
    | none => s
  s

/-- Embedding of DACSamplePair: the two 16-bit codewords sent to the
DAC, as unsigned 16-bit words. -/
structure DACSamplePair where
  audio1 : Nat
  audio2 : Nat
deriving DecidableEq, Repr

namespace DACSamplePair

/-- DACSamplePair::CONFIG1. -/
def CONFIG1 : Nat := 0b0001000000000000

/-- DACSamplePair::CONFIG2. -/
def CONFIG2 : Nat := 0b1001000000000000

/-- DACSamplePair::new(sample1, sample2): u16 shift left by 4
(wrapping into 16 bits) then right by 4, OR-ed with the fixed config
header. -/
def new (sample1 sample2 : Nat) : DACSamplePair :=
  { audio1 := ((sample1 <<< 4) % 2 ^ 16) >>> 4 ||| CONFIG1
    audio2 := ((sample2 <<< 4) % 2 ^ 16) >>> 4 ||| CONFIG2 }

end DACSamplePair

/-- Embedding of the mixing rule at the heart of mixer_loop: start
from the medium sample; if the watch yields an intensity, blend
medium with heavy (intensity at least zero) or with light (negative
intensity, via abs) using the scale functions. -/
def mixerMix (light medium heavy : Sample) (intensity : Option Sample) :
    Sample :=
  match intensity with
  | none => medium
  | some i =>
    if 0 ≤ i.accumulated_raw then
      (medium.scale_inverted i).add (heavy.scale i)
    else
      (medium.scale_inverted i.abs).add (light.scale i.abs)

/-- One mixer_loop tick at the sample level: downsample the three
decoded 16-bit PCM samples to the 12-bit domain by an arithmetic
right shift of 4, wrap each as a Sample, and mix by the peeked
intensity. -/
def mixerTick (l m h : Int) (intensity : Option Sample) : Sample :=
  mixerMix (Sample.from16 (asr4 l)) (Sample.from16 (asr4 m))
    (Sample.from16 (asr4 h)) intensity

/-- Signals reachable through the public constructors and operations
of the wscomp signal type: new, from_u16, update, subtraction,
multiplication by a Signal or by an i32, and division by a nonzero
i32 that does not panic. The integer parameters range over the
corresponding Rust machine-integer domains. -/
inductive Reachable : InputValue → Prop where
  | new : ∀ raw invert, -(2 ^ 31) ≤ raw → raw < 2 ^ 31 →
      Reachable (InputValue.new raw invert)
  | from_u16 : ∀ v invert, 0 ≤ v → v < 2 ^ 16 →
      Reachable (InputValue.from_u16 v invert)
  | update : ∀ s v, Reachable s → 0 ≤ v → v < 2 ^ 16 →
      Reachable (s.update v)
  | sub : ∀ a b, Reachable a → Reachable b → Reachable (a.sub b)
  | mul : ∀ a b, Reachable a → Reachable b → Reachable (a.mul b)
  | mulInt : ∀ a k, Reachable a → -(2 ^ 31) ≤ k → k < 2 ^ 31 →
      Reachable (a.mulInt k)
  | div : ∀ a k b, Reachable a → a.div k = some b → Reachable b

/-- The wrap is the identity on values already in the i32 range. -/
lemma wrap32_id {x : Int} (h1 : -(2 ^ 31) ≤ x) (h2 : x < 2 ^ 31) :
    wrap32 x = x := by
  unfold wrap32
  omega

/-- Arithmetic shift right by 4 as Euclidean division. -/
lemma asr4_eq (x : Int) : asr4 x = x / 16 := by
  unfold asr4
  exact Int.fdiv_eq_ediv x (by norm_num)

/-- Truncating division through Euclidean division, by sign cases. -/
lemma tdiv_cases (a b : Int) (hb : 0 < b) :
    Int.tdiv a b = if 0 ≤ a then a / b else -(-a / b) := by
  split
  · exact Int.tdiv_eq_ediv (by assumption) hb.le
  · rw [← Int.neg_neg (Int.tdiv a b), ← Int.neg_tdiv,
      Int.tdiv_eq_ediv (by omega) hb.le]

/-- The clamped conversion always lands in the logical 12-bit range. -/
lemma to_clamped_range (s : InputValue) :
    -2048 ≤ s.to_clamped ∧ s.to_clamped ≤ 2047 := by
  unfold InputValue.to_clamped i32clamp InputValue.MIN InputValue.MAX
  split_ifs <;> omega

/-- Building from an unsigned 12-bit reading without inversion stores
exactly the recentered reading. -/
lemma to_clamped_from_u16 (r : Int) (h0 : 0 ≤ r) (h1 : r ≤ 4095) :
    (InputValue.from_u16 r false).to_clamped = r - 2048 := by
  simp only [InputValue.from_u16, InputValue.new, InputValue.to_clamped,
    InputValue.OFFSET, InputValue.MIN, InputValue.MAX, shl4, i32clamp,
    asr4_eq]
  rw [wrap32_id (by omega) (by omega)]
  split_ifs <;> omega

example : (InputValue.from_u16 0 false).to_clamped = -2048 := by decide
example : (InputValue.from_u16 2048 false).to_clamped = 0 := by decide
example : (InputValue.from_u16 4095 false).to_clamped = 2047 := by decide
example : (InputValue.from_u16 8000 false).to_clamped = 2047 := by decide
example : (InputValue.from_u16 0 false).to_output = 0 := by decide
example : (InputValue.from_u16 2048 false).to_output = 1024 := by decide
example : (InputValue.from_u16 4095 false).to_output = 2047 := by decide
example : (InputValue.new 123 false).mulInt 2 = InputValue.new 246 false := by
  decide
example : (InputValue.new 240 false).div 2 = some (InputValue.new 120 false) := by
  decide
example : (InputValue.new 123 false).div (-1) = some (InputValue.new (-123) false) := by
  decide

/-- Every reachable signal has an accumulator that is a multiple of 16
and lies in the i32 range. -/
lemma reachable_inv {v : InputValue} (h : Reachable v) :
    16 ∣ v.accumulated_raw ∧ -(2 ^ 31) ≤ v.accumulated_raw ∧
      v.accumulated_raw < 2 ^ 31 := by
  induction h with
  | new raw invert h1 h2 =>
    cases invert <;>
      · simp only [InputValue.new, shl4, wrap32]
        omega
  | from_u16 v invert h1 h2 =>
    cases invert <;>
      · simp only [InputValue.from_u16, InputValue.new, InputValue.OFFSET,
          shl4, wrap32]
        omega
  | update s v hs h1 h2 ih =>
    simp only [InputValue.update, InputValue.OFFSET, shl4, wrap32]
    split_ifs <;> omega
  | sub a b ha hb iha ihb =>
    simp only [InputValue.sub, wrap32]
    omega
  | mul a b ha hb iha ihb =>
    simp only [InputValue.mul, shl4, wrap32]
    omega
  | mulInt a k ha h1 h2 ih =>
    simp only [InputValue.mulInt, shl4, wrap32]
    omega
  | div a k b ha hdiv ih =>
    rw [InputValue.div] at hdiv
    split_ifs at hdiv
    obtain rfl : a.divq k = b := by
      injection hdiv
    simp only [InputValue.divq, shl4, wrap32]
    omega

/-- C1: the claim expects update on an inverted-source signal to store
the negated recentered reading, so that to_clamped equals
clamp(-(v - 2048), -2048, 2047). The code instead runs
`value -= value`, zeroing the reading: for every inverted-source
signal and every reading the updated accumulator is 0 and to_clamped
is 0 (at reading v = 0 the claim expects 2047). -/
theorem update_inverted_zeroes (s : InputValue) (v : Int)
    (h : s.inverted_source = true) :
    (s.update v).accumulated_raw = 0 ∧ (s.update v).to_clamped = 0 := by
  simp only [InputValue.update, h, if_true, InputValue.OFFSET,
    InputValue.to_clamped, InputValue.MIN, InputValue.MAX, shl4, wrap32,
    i32clamp, asr4_eq]
  omega

/-- Witness for C1: the concrete failing input, an inverted-source
signal updated with the raw reading 0. -/
theorem update_inverted_zeroes_witness :
    ((InputValue.new 0 true).update 0).accumulated_raw = 0 ∧
      ((InputValue.new 0 true).update 0).to_clamped = 0 :=
  update_inverted_zeroes (InputValue.new 0 true) 0 rfl

/-- C4: DACSamplePair::new keeps the low 12 bits of each input and ORs
in the fixed configuration headers 0x1000 and 0x9000; the two headers
are constants differing exactly in the channel-select bit (bit 15 of
the codeword). -/
theorem dac_sample_pair_new_masks (s1 s2 : Nat) :
    (DACSamplePair.new s1 s2).audio1 = s1 % 2 ^ 12 ||| 0x1000 ∧
    (DACSamplePair.new s1 s2).audio2 = s2 % 2 ^ 12 ||| 0x9000 ∧
    DACSamplePair.CONFIG1 = 0x1000 ∧ DACSamplePair.CONFIG2 = 0x9000 ∧
    DACSamplePair.CONFIG1 ^^^ DACSamplePair.CONFIG2 = 2 ^ 15 := by
  have key : ∀ s : Nat, ((s <<< 4) % 2 ^ 16) >>> 4 = s % 2 ^ 12 := by
    intro s
    rw [Nat.shiftLeft_eq, Nat.shiftRight_eq_div_pow]
    omega
  refine ⟨?_, ?_, by decide, by decide, by decide⟩ <;>
    · simp only [DACSamplePair.new, DACSamplePair.CONFIG1,
        DACSamplePair.CONFIG2]
      rw [key]

/-- C5: for raw readings in [0, 4095], building a signal from the
unsigned reading without inversion gives a clamped value in
[-2048, 2047], monotonically non-decreasing in the reading. -/
theorem from_u16_to_clamped_range_mono (r1 r2 : Int)
    (h1 : 0 ≤ r1) (h2 : r1 ≤ r2) (h3 : r2 ≤ 4095) :
    (-2048 ≤ (InputValue.from_u16 r1 false).to_clamped ∧
      (InputValue.from_u16 r1 false).to_clamped ≤ 2047) ∧
    (InputValue.from_u16 r1 false).to_clamped ≤
      (InputValue.from_u16 r2 false).to_clamped := by
  rw [to_clamped_from_u16 r1 (by omega) (by omega),
    to_clamped_from_u16 r2 (by omega) (by omega)]
  omega

/-- Witness for C5 at the concrete readings 100 and 200. -/
theorem from_u16_to_clamped_range_mono_witness :
    (-2048 ≤ (InputValue.from_u16 100 false).to_clamped ∧
      (InputValue.from_u16 100 false).to_clamped ≤ 2047) ∧
    (InputValue.from_u16 100 false).to_clamped ≤
      (InputValue.from_u16 200 false).to_clamped :=
  from_u16_to_clamped_range_mono 100 200 (by decide) (by decide) (by decide)

/-- C6: to_output is exactly the halving of to_clamped + 2048 into the
unsigned 11-bit domain, and the three spec examples hold: raw reading
0 maps to 0, 2048 to 1024, 4095 to 2047. -/
theorem to_output_is_halved_offset (s : InputValue) :
    s.to_output = Int.fdiv (s.to_clamped + 2048) 2 ∧
    (InputValue.from_u16 0 false).to_output = 0 ∧
    (InputValue.from_u16 2048 false).to_output = 1024 ∧
    (InputValue.from_u16 4095 false).to_output = 2047 := by
  refine ⟨?_, by decide, by decide, by decide⟩
  obtain ⟨hlo, hhi⟩ := to_clamped_range s
  have fdiv2_eq : ∀ x : Int, Int.fdiv x 2 = x / 2 := fun x =>
    Int.fdiv_eq_ediv x (by norm_num)
  simp only [InputValue.to_output, InputValue.OFFSET, u16cast, fdiv2_eq]
  omega

/-- C9: every signal reachable through the public API keeps its four
accumulation-margin bits zero (the accumulator is a multiple of 16),
so de-shifting and re-shifting the accumulator is lossless. -/
theorem reachable_accumulator_margin_zero (v : InputValue)
    (h : Reachable v) :
    16 ∣ v.accumulated_raw ∧
      shl4 (asr4 v.accumulated_raw) = v.accumulated_raw := by
  obtain ⟨hdvd, hlo, hhi⟩ := reachable_inv h
  refine ⟨hdvd, ?_⟩
  rw [shl4, asr4_eq, Int.ediv_mul_cancel hdvd, wrap32_id hlo hhi]

/-- Witness for C9 at a concrete reachable signal. -/
theorem reachable_accumulator_margin_zero_witness :
    16 ∣ (InputValue.new 5 false).accumulated_raw ∧
      shl4 (asr4 (InputValue.new 5 false).accumulated_raw) =
        (InputValue.new 5 false).accumulated_raw :=
  reachable_accumulator_margin_zero (InputValue.new 5 false)
    (Reachable.new 5 false (by decide) (by decide))

/-- C10: division of a signal by a plain i32 has no divisor guard; for
an accumulator in the i32 range the de-shifted dividend is small
enough that the overflow panic is unreachable, so the operation
returns the truncated re-shifted quotient for every nonzero divisor
and panics exactly when the divisor is 0. -/
theorem div_none_iff_divisor_zero (v : InputValue) (k : Int)
    (h1 : -(2 ^ 31) ≤ v.accumulated_raw) (h2 : v.accumulated_raw < 2 ^ 31) :
    (v.div k = none ↔ k = 0) ∧ (k ≠ 0 → v.div k = some (v.divq k)) := by
  have hasr : -(2 ^ 27) ≤ asr4 v.accumulated_raw ∧
      asr4 v.accumulated_raw < 2 ^ 27 := by
    rw [asr4_eq]
    omega
  rw [InputValue.div]
  split_ifs with hc
  · have hk : k = 0 := by
      rcases hc with hk0 | ⟨habs, _⟩
      · exact hk0
      · omega
    exact ⟨by simp [hk], fun hne => absurd hk hne⟩
  · have hk : k ≠ 0 := fun h0 => hc (Or.inl h0)
    exact ⟨by simp [hk], fun _ => rfl⟩

/-- Witness for C10 at a concrete signal and the divisor 2. -/
theorem div_none_iff_divisor_zero_witness :
    ((InputValue.new 7 false).div 2 = none ↔ (2 : Int) = 0) ∧
      ((2 : Int) ≠ 0 →
        (InputValue.new 7 false).div 2 =
          some ((InputValue.new 7 false).divq 2)) :=
  div_none_iff_divisor_zero (InputValue.new 7 false) 2 (by decide) (by decide)

/-- C7 (amended): for every reachable signal, multiplying by the plain
integer 0 zeroes the accumulator and multiplying by 1 is the
identity; multiplying by -1 negates the accumulator provided the
accumulator is not the extremal i32 value -2^31, where the
re-shift wraps and the product equals the original signal instead. -/
theorem mulInt_zero_one_neg_one (s : InputValue) (h : Reachable s) :
    (s.mulInt 0).accumulated_raw = 0 ∧
    s.mulInt 1 = s ∧
    (s.accumulated_raw ≠ -(2 ^ 31) →
      (s.mulInt (-1)).accumulated_raw = -s.accumulated_raw) := by
  obtain ⟨hdvd, hlo, hhi⟩ := reachable_inv h
  obtain ⟨acc, flag⟩ := s
  simp only at hdvd hlo hhi
  refine ⟨?_, ?_, fun hne => ?_⟩
  · simp only [InputValue.mulInt, shl4, asr4_eq, wrap32]
    omega
  · simp only [InputValue.mulInt, shl4, asr4_eq, wrap32,
      InputValue.mk.injEq]
    exact ⟨by omega, trivial⟩
  · simp only [InputValue.mulInt, shl4, asr4_eq, wrap32] at hne ⊢
    omega

/-- Witness for C7 (amended) at the concrete reachable signal built
from the raw value 123. -/
theorem mulInt_zero_one_neg_one_witness :
    ((InputValue.new 123 false).mulInt 0).accumulated_raw = 0 ∧
    (InputValue.new 123 false).mulInt 1 = InputValue.new 123 false ∧
    ((InputValue.new 123 false).mulInt (-1)).accumulated_raw =
      -(InputValue.new 123 false).accumulated_raw := by
  obtain ⟨h0, h1, h2⟩ :=
    mulInt_zero_one_neg_one (InputValue.new 123 false)
      (Reachable.new 123 false (by decide) (by decide))
  exact ⟨h0, h1, h2 (by decide)⟩

/-- Counterexample for C7 as stated: the signal built from the raw
value -2^27 is reachable through the public constructor new, its
accumulator is the extremal i32 value -2^31, and multiplying it by -1
wraps back to the very same signal rather than negating: the product
still clamps to -2048, not to the negated value. -/
theorem mulInt_neg_one_wraps_at_extreme :
    Reachable (InputValue.new (-(2 ^ 27)) false) ∧
    (InputValue.new (-(2 ^ 27)) false).accumulated_raw = -(2 ^ 31) ∧
    (InputValue.new (-(2 ^ 27)) false).mulInt (-1) =
      InputValue.new (-(2 ^ 27)) false ∧
    ((InputValue.new (-(2 ^ 27)) false).mulInt (-1)).accumulated_raw ≠
      -(InputValue.new (-(2 ^ 27)) false).accumulated_raw ∧
    ((InputValue.new (-(2 ^ 27)) false).mulInt (-1)).to_clamped = -2048 :=
  ⟨Reachable.new (-(2 ^ 27)) false (by decide) (by decide), by decide,
    by decide, by decide, by decide⟩

set_option maxHeartbeats 3000000 in
/-- C8: one mux sampling cycle with arbitrary conversion outcomes:
every failed conversion leaves its sub-field at the previous cycle's
value, every successful conversion updates its sub-field normally,
the cycle always completes (inputCycle is total) with the wrapping
sequence counter incremented, and the resulting aggregate is the
value published to the broadcast cell. -/
theorem input_cycle_retains_failed_fields (prev : MuxState)
    (r : CycleReadings) :
    ((r.rMain = none → (inputCycle prev r).main_knob = prev.main_knob) ∧
      (∀ v, r.rMain = some v →
        (inputCycle prev r).main_knob = prev.main_knob.update v)) ∧
    ((r.rCv1Raw = none → (inputCycle prev r).cv1.raw = prev.cv1.raw) ∧
      (∀ v, r.rCv1Raw = some v →
        (inputCycle prev r).cv1.raw = prev.cv1.raw.update v)) ∧
    ((r.rCv1Probe = none →
        (inputCycle prev r).cv1.probe = prev.cv1.probe) ∧
      (∀ v, r.rCv1Probe = some v →
        (inputCycle prev r).cv1.probe = prev.cv1.probe.update v)) ∧
    ((r.rX = none → (inputCycle prev r).x_knob = prev.x_knob) ∧
      (∀ v, r.rX = some v →
        (inputCycle prev r).x_knob = prev.x_knob.update v)) ∧
    ((r.rCv2Raw = none → (inputCycle prev r).cv2.raw = prev.cv2.raw) ∧
      (∀ v, r.rCv2Raw = some v →
        (inputCycle prev r).cv2.raw = prev.cv2.raw.update v)) ∧
    ((r.rCv2Probe = none →
        (inputCycle prev r).cv2.probe = prev.cv2.probe) ∧
      (∀ v, r.rCv2Probe = some v →
        (inputCycle prev r).cv2.probe = prev.cv2.probe.update v)) ∧
    ((r.rY = none → (inputCycle prev r).y_knob = prev.y_knob) ∧
      (∀ v, r.rY = some v →
        (inputCycle prev r).y_knob = prev.y_knob.update v)) ∧
    ((r.rZ = none → (inputCycle prev r).zswitch = prev.zswitch) ∧
      (∀ v, r.rZ = some v →
        (inputCycle prev r).zswitch =
          (if v < 1000 then ZSwitch.Momentary
            else if 3000 < v then ZSwitch.On else ZSwitch.Off))) ∧
    (inputCycle prev r).sequence_counter =
      (prev.sequence_counter + 1) % 2 ^ 32 := by
  obtain ⟨rMain, rCv1Raw, rCv1Probe, rX, rCv2Raw, rCv2Probe, rY, rZ⟩ := r
  cases rMain <;> cases rCv1Raw <;> cases rCv1Probe <;> cases rX <;>
    cases rCv2Raw <;> cases rCv2Probe <;> cases rY <;> cases rZ <;>
    · dsimp only [inputCycle]
      simp

/-- Witness for C8: starting from the default aggregate, a cycle in
which only the Main conversion fails retains the previous main knob
value, updates the successfully read fields, and increments the
sequence counter. -/
theorem input_cycle_retains_failed_fields_witness :
    (inputCycle MuxState.default
        ⟨none, some 5, some 6, some 1000, some 7, some 8, some 2048,
          some 3500⟩).main_knob = MuxState.default.main_knob ∧
    (inputCycle MuxState.default
        ⟨none, some 5, some 6, some 1000, some 7, some 8, some 2048,
          some 3500⟩).x_knob = MuxState.default.x_knob.update 1000 ∧
    (inputCycle MuxState.default
        ⟨none, some 5, some 6, some 1000, some 7, some 8, some 2048,
          some 3500⟩).zswitch = ZSwitch.On ∧
    (inputCycle MuxState.default
        ⟨none, some 5, some 6, some 1000, some 7, some 8, some 2048,
          some 3500⟩).sequence_counter = 1 := by
  obtain ⟨hm, _, _, hx, _, _, _, hz, hc⟩ :=
    input_cycle_retains_failed_fields MuxState.default
      ⟨none, some 5, some 6, some 1000, some 7, some 8, some 2048,
        some 3500⟩
  refine ⟨hm.1 rfl, hx.2 1000 rfl, ?_, hc⟩
  rw [hz.2 3500 rfl]
  decide

/-- C3: on a mixer tick where the non-blocking peek yields no
intensity (including before any publish), the mixed signal is
exactly that tick's downsampled medium stream sample, unscaled. -/
theorem mixer_no_intensity_passes_medium (l m h : Int) :
    mixerTick l m h none = Sample.from16 (asr4 m) := rfl

/-- Absolute-value bounds unfolded to a two-sided inequality. -/
lemma int_abs_le {a b : Int} (h : |a| ≤ b) : -b ≤ a ∧ a ≤ b := abs_le.mp h

/-- Core of the scale functions at weight 0: multiplying an in-range
sample by the zero weight and dividing by MAX yields the zero
accumulator. -/
lemma mul_divq_zero (sd : Int) (fl : Bool) :
    ((InputValue.mk (sd * 16) fl).mul (InputValue.mk 0 false)).divq
      InputValue.MAX = InputValue.mk 0 fl := by
  have e0 : ((0 : Int)) / 16 = 0 := by decide
  simp only [InputValue.mul, InputValue.divq, InputValue.MAX, shl4, asr4_eq,
    e0, mul_zero, zero_mul]
  norm_num [wrap32]

/-- Core of the scale functions at full weight 2047 (accumulator
32752): multiplying an in-range sample by it and dividing by MAX is
exact and returns the sample unchanged. -/
lemma mul_divq_full (sd : Int) (fl : Bool) (h1 : -2048 ≤ sd)
    (h2 : sd ≤ 2047) :
    ((InputValue.mk (sd * 16) fl).mul (InputValue.mk 32752 false)).divq
      InputValue.MAX = InputValue.mk (sd * 16) fl := by
  have e1 : (sd * 16 : Int) / 16 = sd := by omega
  have e2 : ((32752 : Int)) / 16 = 2047 := by decide
  have e5 : ((2 : Int) ^ 11 - 1) = 2047 := by norm_num
  simp only [InputValue.mul, InputValue.divq, InputValue.MAX, shl4, asr4_eq,
    e1, e2, e5]
  rw [wrap32_id (x := sd * 2047) (by omega) (by omega)]
  have e3 : wrap32 (sd * 2047 * 16) = sd * 2047 * 16 :=
    wrap32_id (by omega) (by omega)
  rw [e3]
  have e4 : (sd * 2047 * 16 : Int) / 16 = sd * 2047 := by omega
  rw [e4, Int.mul_tdiv_cancel sd (by norm_num)]
  rw [wrap32_id (by omega) (by omega)]

/-- Core of scale_inverted at the out-of-range weight -1 (accumulator
-16, arising from intensity 2048): the result is the truncated
quotient of the negated sample by 2047, which lies in [-1, 1]. -/
lemma mul_divq_neg16 (sd : Int) (fl : Bool) (h1 : -2048 ≤ sd)
    (h2 : sd ≤ 2047) :
    ((InputValue.mk (sd * 16) fl).mul (InputValue.mk (-16) false)).divq
      InputValue.MAX = InputValue.mk (Int.tdiv (-sd) 2047 * 16) fl ∧
    -1 ≤ Int.tdiv (-sd) 2047 ∧ Int.tdiv (-sd) 2047 ≤ 1 := by
  have hq : -1 ≤ Int.tdiv (-sd) 2047 ∧ Int.tdiv (-sd) 2047 ≤ 1 := by
    rw [tdiv_cases _ _ (by norm_num)]
    split_ifs <;> omega
  refine ⟨?_, hq⟩
  have e1 : (sd * 16 : Int) / 16 = sd := by omega
  have e2 : ((-16 : Int)) / 16 = -1 := by decide
  have e5 : ((2 : Int) ^ 11 - 1) = 2047 := by norm_num
  simp only [InputValue.mul, InputValue.divq, InputValue.MAX, shl4, asr4_eq,
    e1, e2, e5]
  rw [wrap32_id (x := sd * -1) (by omega) (by omega)]
  have e3 : wrap32 (sd * -1 * 16) = sd * -1 * 16 :=
    wrap32_id (by omega) (by omega)
  rw [e3]
  have e4 : (sd * -1 * 16 : Int) / 16 = -sd := by omega
  rw [e4]
  rw [wrap32_id (by omega) (by omega)]

/-- Core of scale at the out-of-range weight 2048 (accumulator 32768,
the absolute value of the minimum intensity): the result differs from
the sample by at most one unit. -/
lemma mul_divq_2048 (sd : Int) (fl : Bool) (h1 : -2048 ≤ sd)
    (h2 : sd ≤ 2047) :
    ((InputValue.mk (sd * 16) fl).mul (InputValue.mk 32768 false)).divq
      InputValue.MAX = InputValue.mk (Int.tdiv (sd * 2048) 2047 * 16) fl ∧
    sd - 1 ≤ Int.tdiv (sd * 2048) 2047 ∧
      Int.tdiv (sd * 2048) 2047 ≤ sd + 1 := by
  have hq : sd - 1 ≤ Int.tdiv (sd * 2048) 2047 ∧
      Int.tdiv (sd * 2048) 2047 ≤ sd + 1 := by
    rw [tdiv_cases _ _ (by norm_num)]
    split_ifs <;> omega
  refine ⟨?_, hq⟩
  have e1 : (sd * 16 : Int) / 16 = sd := by omega
  have e2 : ((32768 : Int)) / 16 = 2048 := by decide
  have e5 : ((2 : Int) ^ 11 - 1) = 2047 := by norm_num
  simp only [InputValue.mul, InputValue.divq, InputValue.MAX, shl4, asr4_eq,
    e1, e2, e5]
  rw [wrap32_id (x := sd * 2048) (by omega) (by omega)]
  have e3 : wrap32 (sd * 2048 * 16) = sd * 2048 * 16 :=
    wrap32_id (by omega) (by omega)
  rw [e3]
  have e4 : (sd * 2048 * 16 : Int) / 16 = sd * 2048 := by omega
  rw [e4]
  rw [wrap32_id (by omega) (by omega)]

/-- The From conversion on an in-range 12-bit value stores exactly the
value shifted by the accumulation margin. -/
lemma from16_acc (x : Int) (h1 : -2048 ≤ x) (h2 : x ≤ 2047) :
    Sample.from16 x = InputValue.mk (x * 16) false := by
  simp only [Sample.from16, InputValue.new, shl4]
  rw [wrap32_id (by omega) (by omega)]

/-- Downsampling an i16 sample by an arithmetic right shift of 4 lands
in the 12-bit domain. -/
lemma asr4_i16 (x : Int) (h1 : -(2 ^ 15) ≤ x) (h2 : x < 2 ^ 15) :
    -2048 ≤ asr4 x ∧ asr4 x ≤ 2047 := by
  rw [asr4_eq]
  omega

/-- C2: the mixer follows the published crossfade rule, blending
medium with heavy for non-negative intensity and medium with light
(via the absolute value) for negative intensity; at intensity 0 the
mix equals the medium sample exactly, at the maximum intensity 2047
it equals the heavy sample exactly, and at the minimum intensity
-2048 it equals the light sample within the rounding of the scale
functions (clamped difference at most 2). -/
theorem mixer_crossfade_endpoints (l m h : Int)
    (hl1 : -(2 ^ 15) ≤ l) (hl2 : l < 2 ^ 15)
    (hm1 : -(2 ^ 15) ≤ m) (hm2 : m < 2 ^ 15)
    (hh1 : -(2 ^ 15) ≤ h) (hh2 : h < 2 ^ 15) :
    (∀ i : Sample, 0 ≤ i.accumulated_raw →
      mixerTick l m h (some i) =
        ((Sample.from16 (asr4 m)).scale_inverted i).add
          ((Sample.from16 (asr4 h)).scale i)) ∧
    (∀ i : Sample, i.accumulated_raw < 0 →
      mixerTick l m h (some i) =
        ((Sample.from16 (asr4 m)).scale_inverted i.abs).add
          ((Sample.from16 (asr4 l)).scale i.abs)) ∧
    mixerTick l m h (some (InputValue.new 0 false)) =
      Sample.from16 (asr4 m) ∧
    mixerTick l m h (some (InputValue.new 2047 false)) =
      Sample.from16 (asr4 h) ∧
    |(mixerTick l m h (some (InputValue.new (-2048) false))).to_clamped -
      (Sample.from16 (asr4 l)).to_clamped| ≤ 2 := by
  obtain ⟨hld1, hld2⟩ := asr4_i16 l hl1 hl2
  obtain ⟨hmd1, hmd2⟩ := asr4_i16 m hm1 hm2
  obtain ⟨hhd1, hhd2⟩ := asr4_i16 h hh1 hh2
  refine ⟨?_, ?_, ?_, ?_, ?_⟩
  · intro i hi
    simp only [mixerTick, mixerMix]
    rw [if_pos hi]
  · intro i hi
    simp only [mixerTick, mixerMix]
    rw [if_neg (by omega)]
  · have hI : InputValue.new 0 false = InputValue.mk 0 false := by decide
    simp only [mixerTick, mixerMix, hI]
    rw [if_pos (by decide)]
    rw [from16_acc (asr4 m) hmd1 hmd2, from16_acc (asr4 h) hhd1 hhd2]
    simp only [Sample.scale_inverted, Sample.scale]
    rw [show (InputValue.new InputValue.MAX false).sub (InputValue.mk 0 false) =
      InputValue.mk 32752 false from by decide]
    rw [mul_divq_full (asr4 m) false hmd1 hmd2, mul_divq_zero (asr4 h) false]
    simp only [Sample.add]
    rw [show (asr4 m * 16 + 0 : Int) = asr4 m * 16 from by ring]
    rw [wrap32_id (by omega) (by omega)]
  · have hI : InputValue.new 2047 false = InputValue.mk 32752 false := by
      decide
    simp only [mixerTick, mixerMix, hI]
    rw [if_pos (by decide)]
    rw [from16_acc (asr4 m) hmd1 hmd2, from16_acc (asr4 h) hhd1 hhd2]
    simp only [Sample.scale_inverted, Sample.scale]
    rw [show (InputValue.new InputValue.MAX false).sub
      (InputValue.mk 32752 false) = InputValue.mk 0 false from by decide]
    rw [mul_divq_zero (asr4 m) false, mul_divq_full (asr4 h) false hhd1 hhd2]
    simp only [Sample.add]
    rw [show (0 + asr4 h * 16 : Int) = asr4 h * 16 from by ring]
    rw [wrap32_id (by omega) (by omega)]
  · have hI : InputValue.new (-2048) false = InputValue.mk (-32768) false := by
      decide
    simp only [mixerTick, mixerMix, hI]
    rw [if_neg (by decide)]
    rw [show Sample.abs (InputValue.mk (-32768) false) =
      InputValue.mk 32768 false from by decide]
    rw [from16_acc (asr4 m) hmd1 hmd2, from16_acc (asr4 l) hld1 hld2]
    simp only [Sample.scale_inverted, Sample.scale]
    rw [show (InputValue.new InputValue.MAX false).sub
      (InputValue.mk 32768 false) = InputValue.mk (-16) false from by decide]
    obtain ⟨hsi, he1, he2⟩ := mul_divq_neg16 (asr4 m) false hmd1 hmd2
    obtain ⟨hsc, hq1, hq2⟩ := mul_divq_2048 (asr4 l) false hld1 hld2
    rw [hsi, hsc]
    simp only [Sample.add, InputValue.to_clamped, asr4_eq, i32clamp,
      InputValue.MIN, InputValue.MAX]
    simp only [asr4_eq] at he1 he2 hq1 hq2 hld1 hld2 hmd1 hmd2
    rw [wrap32_id (x := Int.tdiv (-(m / 16)) 2047 * 16 +
      Int.tdiv (l / 16 * 2048) 2047 * 16) (by omega) (by omega)]
    rw [abs_le]
    split_ifs <;> constructor <;> omega

/-- Witness for C2 at the concrete decoded samples 16000, -8000 and
4097 and the three endpoint intensities. -/
theorem mixer_crossfade_endpoints_witness :
    mixerTick 16000 (-8000) 4097 (some (InputValue.new 0 false)) =
      Sample.from16 (asr4 (-8000)) ∧
    mixerTick 16000 (-8000) 4097 (some (InputValue.new 2047 false)) =
      Sample.from16 (asr4 4097) ∧
    |(mixerTick 16000 (-8000) 4097
        (some (InputValue.new (-2048) false))).to_clamped -
      (Sample.from16 (asr4 16000)).to_clamped| ≤ 2 := by
  obtain ⟨-, -, h3, h4, h5⟩ :=
    mixer_crossfade_endpoints 16000 (-8000) 4097 (by decide) (by decide)
      (by decide) (by decide) (by decide) (by decide)
  exact ⟨h3, h4, h5⟩
